import Mathlib

/-!
Shallow embedding of `src/parser.rs` of `foundpatterns/patch-rs`: the domain
model (`Patch`, `Context`, `ContextHeader`, `PatchLine`), the patch applier
`PatchProcessor::process`, the convenience constructor `PatchProcessor::converted`,
and the header normalization in `PatchProcessor::get_context_header`.

Rust `Vec<String>` becomes `List String`, `usize` becomes `Nat` (with the one
subtraction that can underflow modelled explicitly), and `Result<T, Error>`
becomes `Except Error T`.  The pest grammar file and the `pest` crate live
outside `src/`, so the raw-text parsing stage is not embedded; functions that
consume its output take the already-parsed values as arguments.
-/

set_option autoImplicit false

namespace PatchRs

/-- The error enumeration of `crate::error::Error`.  Its declaration is outside
`src/`; the variants and their payloads are taken from their uses in
`src/parser.rs` (`AbruptInput(usize)`, `PatchInputMismatch(usize)`,
`NotFound(&str)`, `MalformedPatch(&str)`) and the spec's error taxonomy
(§7: `GrammarError`, `IntegerParseError` for the stages not embedded here). -/
inductive Error where
  | AbruptInput : Nat → Error
  | PatchInputMismatch : Nat → Error
  | NotFound : String → Error
  | MalformedPatch : String → Error
  | Grammar : Error
  | IntegerParse : Error
  deriving DecidableEq, Repr

/-- `enum PatchLine` of `src/parser.rs`: a typed line of a hunk. -/
inductive PatchLine where
  | Context : String → PatchLine
  | Insert : String → PatchLine
  | Delete : String → PatchLine
  deriving DecidableEq, Repr

/-- `struct ContextHeader` of `src/parser.rs`: the four numeric fields of a
hunk header.  `file1_l` / `file2_l` are the (normalized) old/new range starts,
`file1_s` / `file2_s` the old/new range lengths, named as in the source. -/
structure ContextHeader where
  file1_l : Nat
  file1_s : Nat
  file2_l : Nat
  file2_s : Nat
  deriving DecidableEq, Repr

/-- `struct Context` of `src/parser.rs`: one hunk, a header plus its lines. -/
structure Context where
  header : ContextHeader
  data : List PatchLine
  deriving DecidableEq, Repr

/-- `struct Patch` of `src/parser.rs`. -/
structure Patch where
  input : String
  output : String
  contexts : List Context
  deriving DecidableEq, Repr

/-- `struct PatchProcessor` of `src/parser.rs`: the original lines plus the
converted patch. -/
structure PatchProcessor where
  text : List String
  patch : Patch
  deriving DecidableEq, Repr

/-- `copyCount text lo n` embeds `n` iterations of the Rust loops
`for i in lo..hi { file2_text.push(self.text.get(i).ok_or(AbruptInput(i))?…) }`
of `PatchProcessor::process` (`src/parser.rs` lines 57-64 and 98-105), starting
at index `lo`: each step reads `text[lo]`, failing with `Error.AbruptInput lo`
when the index is out of range. -/
def copyCount (text : List String) : Nat → Nat → Except Error (List String)
  | _, 0 => .ok []
  | lo, n + 1 =>
    match text[lo]? with
    | some s => (copyCount text (lo + 1) n).map (fun r => s :: r)
    | none => .error (.AbruptInput lo)

/-- `copyRange text lo hi` is the Rust loop `for i in lo..hi`, which runs
`hi - lo` times (zero times when `lo ≥ hi`). -/
def copyRange (text : List String) (lo hi : Nat) : Except Error (List String) :=
  copyCount text lo (hi - lo)

/-- The inner `for line in &context.data` loop of `PatchProcessor::process`
(`src/parser.rs` lines 66-95), from cursor `ptr`.  Returns the lines pushed to
`file2_text` by this loop together with the final cursor.
`Context` lines are checked against `text[ptr]` (mismatch ⇒
`PatchInputMismatch ptr`, out of range ⇒ `AbruptInput ptr`), pushed, and the
cursor advances; `Delete` lines are checked the same way without being pushed;
`Insert` lines are pushed without moving the cursor. -/
def applyLines (text : List String) : List PatchLine → Nat → Except Error (List String × Nat)
  | [], ptr => .ok ([], ptr)
  | .Context s :: rest, ptr =>
    match text[ptr]? with
    | none => .error (.AbruptInput ptr)
    | some t =>
      if t = s then (applyLines text rest (ptr + 1)).map (fun r => (s :: r.1, r.2))
      else .error (.PatchInputMismatch ptr)
  | .Delete s :: rest, ptr =>
    match text[ptr]? with
    | none => .error (.AbruptInput ptr)
    | some t =>
      if t = s then applyLines text rest (ptr + 1)
      else .error (.PatchInputMismatch ptr)
  | .Insert s :: rest, ptr =>
    (applyLines text rest ptr).map (fun r => (s :: r.1, r.2))

/-- The outer `for context in &self.patch.contexts` loop of
`PatchProcessor::process` (`src/parser.rs` lines 56-96), from cursor `ptr`:
for each hunk, copy `text[ptr..header.file1_l]` (the leading copy loop), set
the cursor to `header.file1_l`, then run the line loop.  Returns all lines
pushed, with the final cursor. -/
def applyContexts (text : List String) : List Context → Nat → Except Error (List String × Nat)
  | [], ptr => .ok ([], ptr)
  | c :: rest, ptr => do
    let pre ← copyRange text ptr c.header.file1_l
    let mid ← applyLines text c.data c.header.file1_l
    let post ← applyContexts text rest mid.2
    .ok (pre ++ mid.1 ++ post.1, post.2)

/-- `PatchProcessor::process` (`src/parser.rs` lines 52-108): run all hunks
from cursor `0`, then copy the remaining original lines
`for i in file1_ptr..self.text.len()`. -/
def PatchProcessor.process (self : PatchProcessor) : Except Error (List String) := do
  let body ← applyContexts self.text self.patch.contexts 0
  let tail ← copyRange self.text body.2 self.text.length
  .ok (body.1 ++ tail)

/-- `PatchProcessor::converted` (`src/parser.rs` lines 45-50):
`Ok(Self { text, patch: Self::convert(patch)? })`.  The argument `cv` stands
for the result of `Self::convert(patch)`, whose pest parsing stage is outside
`src/`; `converted` uses that result opaquely, so the embedding takes it as an
argument. -/
def PatchProcessor.converted (text : List String) (cv : Except Error Patch) :
    Except Error PatchProcessor :=
  match cv with
  | .error e => .error e
  | .ok p => .ok ⟨text, p⟩

/-- Modelled from the spec: §6 describes "a convenience constructor that takes
raw original lines and raw patch text and returns the final result directly,
composing both of the above" (`convert` then `process`).  As in
`PatchProcessor.converted`, the conversion outcome `cv` stands for
`convert(patch)`. -/
def converted_spec (text : List String) (cv : Except Error Patch) :
    Except Error (List String) :=
  match cv with
  | .error e => .error e
  | .ok p => PatchProcessor.process ⟨text, p⟩

/-- Rust `usize` subtraction `x - 1` as performed by `-=` with overflow checks:
it panics (modelled as `none`) when `x = 0` instead of producing a value or a
typed error. -/
def subUnderflow (x : Nat) : Option Nat :=
  if x = 0 then none else some (x - 1)

/-- The field-normalization core of `PatchProcessor::get_context_header`
(`src/parser.rs` lines 184-198).  The pest pair iteration and the
`str::parse` calls are the non-embedded parsing stage; the four arguments are
the parsed values of the `file1_l`, `file1_s`, `file2_l`, `file2_s` fields as
stored by the loop.  The function then runs `output.file1_l -= 1` and
`output.file2_l -= 1`; `none` models the panic of an underflowing subtraction. -/
def get_context_header (file1_l file1_s file2_l file2_s : Nat) : Option ContextHeader := do
  let f1 ← subUnderflow file1_l
  let f2 ← subUnderflow file2_l
  some ⟨f1, file1_s, f2, file2_s⟩

/-- Claim C1: on original lines `["a","b","c","d"]` and a patch with a single
hunk of normalized old start `1` and lines
`[Context "b", Insert "X", Delete "c"]` (the other header fields and the path
metadata arbitrary), `process` returns `Ok ["a","b","X","d"]`. -/
theorem process_concrete_scenario (inp outp : String) (s1 l2 s2 : Nat) :
    PatchProcessor.process
      ⟨["a", "b", "c", "d"],
        ⟨inp, outp,
          [⟨⟨1, s1, l2, s2⟩,
            [.Context "b", .Insert "X", .Delete "c"]⟩]⟩⟩
      = .ok ["a", "b", "X", "d"] := by
  rfl

theorem except_bind_ok {α β : Type} (a : α) (f : α → Except Error β) :
    Except.bind (Except.ok a) f = f a := rfl

theorem except_bind_error {α β : Type} (e : Error) (f : α → Except Error β) :
    Except.bind (Except.error e : Except Error α) f = Except.error e := rfl

theorem except_map_ok {α β : Type} (f : α → β) (a : α) :
    Except.map f (Except.ok a : Except Error α) = Except.ok (f a) := rfl

theorem except_map_error {α β : Type} (f : α → β) (e : Error) :
    Except.map f (Except.error e : Except Error α) = Except.error e := rfl

/-- Unfolding equation: `process` is the hunk loop followed by the trailing
copy loop. -/
theorem process_def (self : PatchProcessor) :
    self.process
      = Except.bind (applyContexts self.text self.patch.contexts 0)
          (fun body => Except.bind (copyRange self.text body.2 self.text.length)
            (fun tail => Except.ok (body.1 ++ tail))) := rfl

/-- Unfolding equation for one hunk of the outer loop. -/
theorem applyContexts_cons (text : List String) (c : Context) (rest : List Context)
    (ptr : Nat) :
    applyContexts text (c :: rest) ptr
      = Except.bind (copyRange text ptr c.header.file1_l)
          (fun pre => Except.bind (applyLines text c.data c.header.file1_l)
            (fun mid => Except.bind (applyContexts text rest mid.2)
              (fun post => Except.ok (pre ++ mid.1 ++ post.1, post.2)))) := rfl

/-- A `Context` line whose text matches the original at the cursor is kept and
the cursor advances. -/
theorem applyLines_context_ok (text : List String) (s t : String)
    (rest : List PatchLine) (ptr : Nat)
    (h : text[ptr]? = some t) (hts : t = s) :
    applyLines text (.Context s :: rest) ptr
      = Except.map (fun r => (s :: r.1, r.2)) (applyLines text rest (ptr + 1)) := by
  show (match text[ptr]? with
      | none => Except.error (Error.AbruptInput ptr)
      | some t => if t = s
          then Except.map (fun (r : List String × Nat) => (s :: r.1, r.2)) (applyLines text rest (ptr + 1))
          else Except.error (Error.PatchInputMismatch ptr)) = _
  rw [h]
  show (if t = s
      then Except.map (fun (r : List String × Nat) => (s :: r.1, r.2)) (applyLines text rest (ptr + 1))
      else Except.error (Error.PatchInputMismatch ptr)) = _
  rw [if_pos hts]

/-- A `Context` line whose text differs from the original at the cursor stops
the run with `PatchInputMismatch`. -/
theorem applyLines_context_mismatch (text : List String) (s t : String)
    (rest : List PatchLine) (ptr : Nat)
    (h : text[ptr]? = some t) (hts : t ≠ s) :
    applyLines text (.Context s :: rest) ptr
      = .error (.PatchInputMismatch ptr) := by
  show (match text[ptr]? with
      | none => Except.error (Error.AbruptInput ptr)
      | some t => if t = s
          then Except.map (fun (r : List String × Nat) => (s :: r.1, r.2)) (applyLines text rest (ptr + 1))
          else Except.error (Error.PatchInputMismatch ptr)) = _
  rw [h]
  show (if t = s
      then Except.map (fun (r : List String × Nat) => (s :: r.1, r.2)) (applyLines text rest (ptr + 1))
      else Except.error (Error.PatchInputMismatch ptr)) = _
  rw [if_neg hts]

/-- A `Context` line checked at an out-of-range cursor stops the run with
`AbruptInput`. -/
theorem applyLines_context_oob (text : List String) (s : String)
    (rest : List PatchLine) (ptr : Nat) (h : text[ptr]? = none) :
    applyLines text (.Context s :: rest) ptr = .error (.AbruptInput ptr) := by
  show (match text[ptr]? with
      | none => Except.error (Error.AbruptInput ptr)
      | some t => if t = s
          then Except.map (fun (r : List String × Nat) => (s :: r.1, r.2)) (applyLines text rest (ptr + 1))
          else Except.error (Error.PatchInputMismatch ptr)) = _
  rw [h]

/-- A `Delete` line whose text matches the original is dropped and the cursor
advances. -/
theorem applyLines_delete_ok (text : List String) (s t : String)
    (rest : List PatchLine) (ptr : Nat)
    (h : text[ptr]? = some t) (hts : t = s) :
    applyLines text (.Delete s :: rest) ptr = applyLines text rest (ptr + 1) := by
  show (match text[ptr]? with
      | none => Except.error (Error.AbruptInput ptr)
      | some t => if t = s
          then applyLines text rest (ptr + 1)
          else Except.error (Error.PatchInputMismatch ptr)) = _
  rw [h]
  show (if t = s
      then applyLines text rest (ptr + 1)
      else Except.error (Error.PatchInputMismatch ptr)) = _
  rw [if_pos hts]

/-- A `Delete` line whose text differs from the original at the cursor stops
the run with `PatchInputMismatch`. -/
theorem applyLines_delete_mismatch (text : List String) (s t : String)
    (rest : List PatchLine) (ptr : Nat)
    (h : text[ptr]? = some t) (hts : t ≠ s) :
    applyLines text (.Delete s :: rest) ptr
      = .error (.PatchInputMismatch ptr) := by
  show (match text[ptr]? with
      | none => Except.error (Error.AbruptInput ptr)
      | some t => if t = s
          then applyLines text rest (ptr + 1)
          else Except.error (Error.PatchInputMismatch ptr)) = _
  rw [h]
  show (if t = s
      then applyLines text rest (ptr + 1)
      else Except.error (Error.PatchInputMismatch ptr)) = _
  rw [if_neg hts]

/-- A `Delete` line checked at an out-of-range cursor stops the run with
`AbruptInput`. -/
theorem applyLines_delete_oob (text : List String) (s : String)
    (rest : List PatchLine) (ptr : Nat) (h : text[ptr]? = none) :
    applyLines text (.Delete s :: rest) ptr = .error (.AbruptInput ptr) := by
  show (match text[ptr]? with
      | none => Except.error (Error.AbruptInput ptr)
      | some t => if t = s
          then applyLines text rest (ptr + 1)
          else Except.error (Error.PatchInputMismatch ptr)) = _
  rw [h]

/-- An `Insert` line is pushed without consulting or moving the cursor. -/
theorem applyLines_insert (text : List String) (s : String)
    (rest : List PatchLine) (ptr : Nat) :
    applyLines text (.Insert s :: rest) ptr
      = Except.map (fun r => (s :: r.1, r.2)) (applyLines text rest ptr) := rfl

/-- The line loop over a concatenation runs the first part, then the second
from the cursor the first one reached. -/
theorem applyLines_append (text : List String) (xs ys : List PatchLine) :
    ∀ ptr, applyLines text (xs ++ ys) ptr
      = Except.bind (applyLines text xs ptr)
          (fun r => Except.map (fun r2 => (r.1 ++ r2.1, r2.2))
            (applyLines text ys r.2)) := by
  induction xs with
  | nil =>
    intro ptr
    show applyLines text ys ptr
        = Except.bind (Except.ok (([], ptr) : List String × Nat))
            (fun r => Except.map (fun r2 => (r.1 ++ r2.1, r2.2))
              (applyLines text ys r.2))
    rw [except_bind_ok]
    cases applyLines text ys ptr <;> rfl
  | cons x xs ih =>
    intro ptr
    cases x with
    | Context s =>
      cases htp : text[ptr]? with
      | none =>
        rw [show (PatchLine.Context s :: xs) ++ ys = .Context s :: (xs ++ ys) from rfl,
          applyLines_context_oob text s (xs ++ ys) ptr htp,
          applyLines_context_oob text s xs ptr htp]
        rfl
      | some t =>
        by_cases hts : t = s
        · rw [show (PatchLine.Context s :: xs) ++ ys = .Context s :: (xs ++ ys) from rfl,
            applyLines_context_ok text s t (xs ++ ys) ptr htp hts,
            applyLines_context_ok text s t xs ptr htp hts, ih (ptr + 1)]
          cases applyLines text xs (ptr + 1) with
          | error e => rfl
          | ok r =>
            simp only [except_bind_ok, except_map_ok]
            cases applyLines text ys r.2 <;> rfl
        · rw [show (PatchLine.Context s :: xs) ++ ys = .Context s :: (xs ++ ys) from rfl,
            applyLines_context_mismatch text s t (xs ++ ys) ptr htp hts,
            applyLines_context_mismatch text s t xs ptr htp hts]
          rfl
    | Delete s =>
      cases htp : text[ptr]? with
      | none =>
        rw [show (PatchLine.Delete s :: xs) ++ ys = .Delete s :: (xs ++ ys) from rfl,
          applyLines_delete_oob text s (xs ++ ys) ptr htp,
          applyLines_delete_oob text s xs ptr htp]
        rfl
      | some t =>
        by_cases hts : t = s
        · rw [show (PatchLine.Delete s :: xs) ++ ys = .Delete s :: (xs ++ ys) from rfl,
            applyLines_delete_ok text s t (xs ++ ys) ptr htp hts,
            applyLines_delete_ok text s t xs ptr htp hts, ih (ptr + 1)]
        · rw [show (PatchLine.Delete s :: xs) ++ ys = .Delete s :: (xs ++ ys) from rfl,
            applyLines_delete_mismatch text s t (xs ++ ys) ptr htp hts,
            applyLines_delete_mismatch text s t xs ptr htp hts]
          rfl
    | Insert s =>
      rw [show (PatchLine.Insert s :: xs) ++ ys = .Insert s :: (xs ++ ys) from rfl,
        applyLines_insert text s (xs ++ ys) ptr, applyLines_insert text s xs ptr,
        ih ptr]
      cases applyLines text xs ptr with
      | error e => rfl
      | ok r =>
        simp only [except_bind_ok, except_map_ok]
        cases applyLines text ys r.2 <;> rfl

/-- The hunk loop over a concatenation runs the first part, then the second
from the cursor the first one reached. -/
theorem applyContexts_append (text : List String) (cs ds : List Context) :
    ∀ ptr, applyContexts text (cs ++ ds) ptr
      = Except.bind (applyContexts text cs ptr)
          (fun r => Except.map (fun r2 => (r.1 ++ r2.1, r2.2))
            (applyContexts text ds r.2)) := by
  induction cs with
  | nil =>
    intro ptr
    show applyContexts text ds ptr
        = Except.bind (Except.ok (([], ptr) : List String × Nat))
            (fun r => Except.map (fun r2 => (r.1 ++ r2.1, r2.2))
              (applyContexts text ds r.2))
    rw [except_bind_ok]
    cases applyContexts text ds ptr <;> rfl
  | cons c cs ih =>
    intro ptr
    rw [show (c :: cs) ++ ds = c :: (cs ++ ds) from rfl,
      applyContexts_cons text c (cs ++ ds) ptr, applyContexts_cons text c cs ptr]
    cases copyRange text ptr c.header.file1_l with
    | error e => rfl
    | ok pre =>
      simp only [except_bind_ok]
      cases applyLines text c.data c.header.file1_l with
      | error e => rfl
      | ok mid =>
        simp only [except_bind_ok]
        rw [ih mid.2]
        cases applyContexts text cs mid.2 with
        | error e => rfl
        | ok r =>
          simp only [except_bind_ok, except_map_ok]
          cases applyContexts text ds r.2 with
          | error e => rfl
          | ok r2 => simp only [except_map_ok, except_bind_ok, List.append_assoc]

/-- A fully in-range copy loop succeeds and returns the copied slice. -/
theorem copyCount_ok (text : List String) (n : Nat) :
    ∀ lo, lo + n ≤ text.length →
      copyCount text lo n = .ok ((text.drop lo).take n) := by
  induction n with
  | zero => intro lo _; rfl
  | succ n ih =>
    intro lo h
    have hlo : lo < text.length := by omega
    have hget : text[lo]? = some text[lo] := List.getElem?_eq_getElem hlo
    have hdrop : text.drop lo = text[lo] :: text.drop (lo + 1) :=
      List.drop_eq_getElem_cons hlo
    have step : copyCount text lo (n + 1)
        = (match text[lo]? with
          | some s => Except.map (fun r => s :: r) (copyCount text (lo + 1) n)
          | none => Except.error (Error.AbruptInput lo)) := rfl
    rw [step, hget]
    show Except.map (fun r => text[lo] :: r) (copyCount text (lo + 1) n) = _
    rw [ih (lo + 1) (by omega), hdrop]
    rfl

/-- Copying from `lo` to the end of the sequence yields `text.drop lo`. -/
theorem copyRange_drop (text : List String) (lo : Nat) (h : lo ≤ text.length) :
    copyRange text lo text.length = .ok (text.drop lo) := by
  unfold copyRange
  have := copyCount_ok text (text.length - lo) lo (by omega)
  rw [this]
  congr 1
  have hlen : (text.drop lo).length = text.length - lo := List.length_drop lo text
  calc (text.drop lo).take (text.length - lo)
      = (text.drop lo).take (text.drop lo).length := by rw [hlen]
    _ = text.drop lo := List.take_length (text.drop lo)

/-- Claim C4: applying a patch with an empty hunk list returns the original
line sequence unchanged. -/
theorem process_empty_hunks (text : List String) (inp outp : String) :
    PatchProcessor.process ⟨text, ⟨inp, outp, []⟩⟩ = .ok text := by
  have h0 : applyContexts text [] 0 = .ok ([], 0) := rfl
  have h1 : copyRange text 0 text.length = .ok (text.drop 0) :=
    copyRange_drop text 0 (Nat.zero_le _)
  unfold PatchProcessor.process
  rw [h0]
  show Except.bind (copyRange text 0 text.length)
      (fun tail => Except.ok ((([], 0) : List String × Nat).1 ++ tail)) = .ok text
  rw [h1]
  rfl

theorem except_bind_eq_ok {α β : Type} (e : Except Error α) (f : α → Except Error β)
    (b : β) (h : Except.bind e f = .ok b) : ∃ a, e = .ok a ∧ f a = .ok b := by
  cases e with
  | error err => exact absurd h (by simp [Except.bind])
  | ok a => exact ⟨a, rfl, h⟩

theorem except_map_eq_ok {α β : Type} (f : α → β) (e : Except Error α) (b : β)
    (h : Except.map f e = .ok b) : ∃ a, e = .ok a ∧ b = f a := by
  cases e with
  | error err => exact absurd h (by simp [Except.map])
  | ok a =>
    refine ⟨a, rfl, ?_⟩
    rw [except_map_ok] at h
    exact (Except.ok.inj h).symm

/-- Unfolding equation for one hunk, with the hunk's fields exposed. -/
theorem applyContexts_cons_mk (text : List String) (hdr : ContextHeader)
    (data : List PatchLine) (rest : List Context) (ptr : Nat) :
    applyContexts text (⟨hdr, data⟩ :: rest) ptr
      = Except.bind (copyRange text ptr hdr.file1_l)
          (fun pre => Except.bind (applyLines text data hdr.file1_l)
            (fun mid => Except.bind (applyContexts text rest mid.2)
              (fun post => Except.ok (pre ++ mid.1 ++ post.1, post.2)))) := rfl

/-- A copy loop over an empty range copies nothing and cannot fail. -/
theorem copyRange_empty (text : List String) (lo hi : Nat) (h : hi ≤ lo) :
    copyRange text lo hi = .ok [] := by
  unfold copyRange
  rw [Nat.sub_eq_zero_of_le h]
  rfl

/-- A copy loop that starts in range but runs past the end of the sequence
fails with `AbruptInput` at the first out-of-range index, which is the
sequence's length. -/
theorem copyCount_oob (text : List String) (n : Nat) :
    ∀ lo, lo ≤ text.length → text.length < lo + n →
      copyCount text lo n = .error (.AbruptInput text.length) := by
  induction n with
  | zero => intro lo h1 h2; omega
  | succ n ih =>
    intro lo h1 h2
    have step : copyCount text lo (n + 1)
        = (match text[lo]? with
          | some s => Except.map (fun r => s :: r) (copyCount text (lo + 1) n)
          | none => Except.error (Error.AbruptInput lo)) := rfl
    rcases Nat.lt_or_ge lo text.length with hlt | hge
    · have hget : text[lo]? = some text[lo] := List.getElem?_eq_getElem hlt
      rw [step, hget]
      show Except.map (fun r => text[lo] :: r) (copyCount text (lo + 1) n) = _
      rw [ih (lo + 1) (by omega) (by omega)]
      rfl
    · have hl : lo = text.length := Nat.le_antisymm h1 hge
      have hget : text[lo]? = none := List.getElem?_eq_none (by omega)
      rw [step, hget, hl]

/-- Range version of `copyCount_oob`. -/
theorem copyRange_oob (text : List String) (lo hi : Nat)
    (h1 : lo ≤ text.length) (h2 : text.length < hi) :
    copyRange text lo hi = .error (.AbruptInput text.length) := by
  unfold copyRange
  exact copyCount_oob text (hi - lo) lo h1 (by omega)

/-- A copy loop that succeeded only visited in-range indices. -/
theorem copyCount_ok_le (text : List String) (n : Nat) :
    ∀ lo out, copyCount text lo n = .ok out →
      n = 0 ∨ lo + n ≤ text.length := by
  induction n with
  | zero => intro lo out _; exact Or.inl rfl
  | succ n ih =>
    intro lo out h
    have step : copyCount text lo (n + 1)
        = (match text[lo]? with
          | some s => Except.map (fun r => s :: r) (copyCount text (lo + 1) n)
          | none => Except.error (Error.AbruptInput lo)) := rfl
    rw [step] at h
    cases hget : text[lo]? with
    | none => rw [hget] at h; exact absurd h (by simp)
    | some s =>
      rw [hget] at h
      have hlo : lo < text.length := by
        obtain ⟨hl, -⟩ := List.getElem?_eq_some.mp hget
        exact hl
      have hin : Except.map (fun r => s :: r) (copyCount text (lo + 1) n) = .ok out := h
      obtain ⟨out1, hc, -⟩ := except_map_eq_ok _ _ _ hin
      rcases ih (lo + 1) out1 hc with h0 | hle
      · omega
      · omega

/-- Range version of `copyCount_ok_le`:  a successful leading copy from an
in-range cursor leaves the target index within bounds. -/
theorem copyRange_ok_le (text : List String) (lo hi : Nat) (out : List String)
    (h : copyRange text lo hi = .ok out) (hlo : lo ≤ text.length) :
    hi ≤ text.length := by
  unfold copyRange at h
  rcases copyCount_ok_le text (hi - lo) lo out h with h0 | hle
  · omega
  · omega

/-- The line loop only ever advances the cursor past indices it successfully
read, so from an in-range cursor it ends at an in-range cursor. -/
theorem applyLines_ptr_le (text : List String) (ls : List PatchLine) :
    ∀ ptr out p, applyLines text ls ptr = .ok (out, p) →
      ptr ≤ text.length → p ≤ text.length := by
  induction ls with
  | nil =>
    intro ptr out p h hle
    have : ptr = p := congrArg Prod.snd (Except.ok.inj h)
    omega
  | cons x ls ih =>
    intro ptr out p h hle
    cases x with
    | Context s =>
      cases hget : text[ptr]? with
      | none =>
        rw [applyLines_context_oob text s ls ptr hget] at h
        exact absurd h (by simp)
      | some t =>
        have hptr : ptr < text.length := by
          obtain ⟨hl, -⟩ := List.getElem?_eq_some.mp hget
          exact hl
        by_cases hts : t = s
        · rw [applyLines_context_ok text s t ls ptr hget hts] at h
          obtain ⟨r, hr, hout⟩ := except_map_eq_ok _ _ _ h
          have hp : p = r.2 := congrArg Prod.snd hout
          rw [hp]
          exact ih (ptr + 1) r.1 r.2 hr (by omega)
        · rw [applyLines_context_mismatch text s t ls ptr hget hts] at h
          exact absurd h (by simp)
    | Delete s =>
      cases hget : text[ptr]? with
      | none =>
        rw [applyLines_delete_oob text s ls ptr hget] at h
        exact absurd h (by simp)
      | some t =>
        have hptr : ptr < text.length := by
          obtain ⟨hl, -⟩ := List.getElem?_eq_some.mp hget
          exact hl
        by_cases hts : t = s
        · rw [applyLines_delete_ok text s t ls ptr hget hts] at h
          exact ih (ptr + 1) out p h (by omega)
        · rw [applyLines_delete_mismatch text s t ls ptr hget hts] at h
          exact absurd h (by simp)
    | Insert s =>
      rw [applyLines_insert text s ls ptr] at h
      obtain ⟨r, hr, hout⟩ := except_map_eq_ok _ _ _ h
      have hp : p = r.2 := congrArg Prod.snd hout
      rw [hp]
      exact ih ptr r.1 r.2 hr hle

/-- The hunk loop keeps the cursor within the original sequence: the leading
copy only succeeds when the hunk start is in range (or behind the cursor), and
the line loop only advances past indices it read. -/
theorem applyContexts_ptr_le (text : List String) (cs : List Context) :
    ∀ ptr out p, applyContexts text cs ptr = .ok (out, p) →
      ptr ≤ text.length → p ≤ text.length := by
  induction cs with
  | nil =>
    intro ptr out p h hle
    have : ptr = p := congrArg Prod.snd (Except.ok.inj h)
    omega
  | cons c cs ih =>
    intro ptr out p h hle
    rw [applyContexts_cons text c cs ptr] at h
    obtain ⟨pre, hcr, h⟩ := except_bind_eq_ok _ _ _ h
    obtain ⟨mid, hal, h⟩ := except_bind_eq_ok _ _ _ h
    obtain ⟨post, hac, h⟩ := except_bind_eq_ok _ _ _ h
    have hfl : c.header.file1_l ≤ text.length := copyRange_ok_le text ptr _ pre hcr hle
    have hmid : mid.2 ≤ text.length :=
      applyLines_ptr_le text c.data c.header.file1_l mid.1 mid.2 hal hfl
    have hpost : post.2 ≤ text.length := ih mid.2 post.1 post.2 hac hmid
    have hp : post.2 = p := congrArg Prod.snd (Except.ok.inj h)
    omega

/-- When a later hunk fails, that failure is the whole result of `process`:
the hunks before it contribute nothing observable. -/
theorem process_error_of_rest (text : List String) (inp outp : String)
    (pre rest : List Context) (out1 : List String) (p1 : Nat) (e : Error)
    (h1 : applyContexts text pre 0 = .ok (out1, p1))
    (h2 : applyContexts text rest p1 = .error e) :
    PatchProcessor.process ⟨text, ⟨inp, outp, pre ++ rest⟩⟩ = .error e := by
  rw [process_def]
  show Except.bind (applyContexts text (pre ++ rest) 0)
      (fun body => Except.bind (copyRange text body.2 text.length)
        (fun tail => Except.ok (body.1 ++ tail))) = .error e
  rw [applyContexts_append text pre rest 0, h1]
  simp only [except_bind_ok]
  rw [h2]
  rfl

/-- A hunk whose line loop fails after a successful leading copy fails the
whole hunk loop with that error. -/
theorem applyContexts_hunk_error (text : List String) (hdr : ContextHeader)
    (front lrest : List PatchLine) (post : List Context) (out2 out3 : List String)
    (p1 i : Nat) (pl : PatchLine) (e : Error)
    (h2 : copyRange text p1 hdr.file1_l = .ok out2)
    (h3 : applyLines text front hdr.file1_l = .ok (out3, i))
    (h4 : applyLines text (pl :: lrest) i = .error e) :
    applyContexts text (⟨hdr, front ++ pl :: lrest⟩ :: post) p1 = .error e := by
  rw [applyContexts_cons_mk, h2]
  simp only [except_bind_ok]
  rw [applyLines_append text front (pl :: lrest) hdr.file1_l, h3]
  simp only [except_bind_ok]
  rw [h4]
  rfl

/-- Claim C2: when execution reaches a `Context` or `Delete` line (all earlier
hunks, the leading copy, and all earlier lines of the current hunk succeeded,
leaving the cursor at `i`) whose text `s` differs from the original line `t`
at the in-range index `i`, `process` returns exactly
`Error.PatchInputMismatch i` — the error of the first divergence — and, the
result being an `Except.error`, no (partial) output sequence is returned. -/
theorem process_first_mismatch
    (text : List String) (inp outp : String) (pre post : List Context)
    (hdr : ContextHeader) (front lrest : List PatchLine) (s t : String)
    (out1 out2 out3 : List String) (p1 i : Nat) (d : Bool)
    (h1 : applyContexts text pre 0 = .ok (out1, p1))
    (h2 : copyRange text p1 hdr.file1_l = .ok out2)
    (h3 : applyLines text front hdr.file1_l = .ok (out3, i))
    (ht : text[i]? = some t)
    (hne : t ≠ s) :
    PatchProcessor.process
      ⟨text, ⟨inp, outp,
        pre ++ ⟨hdr,
          front ++ (if d then PatchLine.Delete s else PatchLine.Context s) :: lrest⟩ :: post⟩⟩
      = .error (.PatchInputMismatch i) := by
  apply process_error_of_rest text inp outp pre _ out1 p1 _ h1
  apply applyContexts_hunk_error text hdr front lrest post out2 out3 p1 i _ _ h2 h3
  cases d with
  | false => exact applyLines_context_mismatch text s t lrest i ht hne
  | true => exact applyLines_delete_mismatch text s t lrest i ht hne

/-- Witness for `process_first_mismatch`, at the spec's concrete failure
scenario: `original[1] = "b" ≠ "Z"`, so applying `[Context "Z"]` at old
start `1` fails with `PatchInputMismatch 1`. -/
theorem process_first_mismatch_witness :
    PatchProcessor.process
      ⟨["a", "b", "c", "d"], ⟨"i", "o", [⟨⟨1, 3, 1, 3⟩, [PatchLine.Context "Z"]⟩]⟩⟩
      = .error (.PatchInputMismatch 1) :=
  process_first_mismatch ["a", "b", "c", "d"] "i" "o" [] [] ⟨1, 3, 1, 3⟩ [] []
    "Z" "b" [] ["a"] [] 0 1 false (by rfl) (by rfl) (by rfl) (by rfl) (by decide)

/-- Counterexample to claim C5 as stated: a hunk whose normalized old start
is at (`= `) the original sequence's length refers to an index at or beyond
the length, yet `process` succeeds when the hunk's lines never read the
original — the leading copy loop excludes the start index itself. -/
theorem process_abrupt_counterexample :
    ([] : List String).length ≤ 0
    ∧ PatchProcessor.process
        ⟨[], ⟨"i", "o", [⟨⟨0, 0, 1, 1⟩, [PatchLine.Insert "X"]⟩]⟩⟩ = .ok ["X"] :=
  ⟨Nat.le_refl 0, rfl⟩

/-- Claim C5 (amended): (1) if a hunk's normalized old start lies strictly
beyond the original length (the cursor being in range), the leading copy fails
with `AbruptInput` at the first out-of-range index, the sequence's length;
(2) if a `Context` or `Delete` check occurs at an out-of-range cursor `i`,
`process` fails with `AbruptInput i`.  (The trailing copy range never refers
to an out-of-range index, so the third case of the claim is vacuous.) -/
theorem process_abrupt_amended :
    (∀ (text : List String) (inp outp : String) (pre post : List Context)
        (hdr : ContextHeader) (lines : List PatchLine) (out1 : List String) (p1 : Nat),
      applyContexts text pre 0 = .ok (out1, p1) →
      p1 ≤ text.length →
      text.length < hdr.file1_l →
      PatchProcessor.process ⟨text, ⟨inp, outp, pre ++ ⟨hdr, lines⟩ :: post⟩⟩
        = .error (.AbruptInput text.length))
    ∧ (∀ (text : List String) (inp outp : String) (pre post : List Context)
        (hdr : ContextHeader) (front lrest : List PatchLine) (s : String)
        (out1 out2 out3 : List String) (p1 i : Nat) (d : Bool),
      applyContexts text pre 0 = .ok (out1, p1) →
      copyRange text p1 hdr.file1_l = .ok out2 →
      applyLines text front hdr.file1_l = .ok (out3, i) →
      text[i]? = none →
      PatchProcessor.process
        ⟨text, ⟨inp, outp,
          pre ++ ⟨hdr,
            front ++ (if d then PatchLine.Delete s else PatchLine.Context s) :: lrest⟩ :: post⟩⟩
        = .error (.AbruptInput i)) := by
  constructor
  · intro text inp outp pre post hdr lines out1 p1 h1 hp1 hlen
    apply process_error_of_rest text inp outp pre _ out1 p1 _ h1
    rw [applyContexts_cons_mk, copyRange_oob text p1 hdr.file1_l hp1 hlen]
    rfl
  · intro text inp outp pre post hdr front lrest s out1 out2 out3 p1 i d h1 h2 h3 ht
    apply process_error_of_rest text inp outp pre _ out1 p1 _ h1
    apply applyContexts_hunk_error text hdr front lrest post out2 out3 p1 i _ _ h2 h3
    cases d with
    | false => exact applyLines_context_oob text s lrest i ht
    | true => exact applyLines_delete_oob text s lrest i ht

/-- Witness for `process_abrupt_amended`: on `["a"]`, a hunk starting at `3`
fails with `AbruptInput 1` (the length), and a hunk checking `Context "b"` at
cursor `1` fails with `AbruptInput 1`. -/
theorem process_abrupt_amended_witness :
    PatchProcessor.process ⟨["a"], ⟨"i", "o", [⟨⟨3, 0, 1, 0⟩, []⟩]⟩⟩
        = .error (.AbruptInput 1)
    ∧ PatchProcessor.process
        ⟨["a"], ⟨"i", "o", [⟨⟨1, 0, 1, 0⟩, [PatchLine.Context "b"]⟩]⟩⟩
        = .error (.AbruptInput 1) :=
  ⟨process_abrupt_amended.1 ["a"] "i" "o" [] [] ⟨3, 0, 1, 0⟩ [] [] 0
      (by rfl) (by decide) (by decide),
    process_abrupt_amended.2 ["a"] "i" "o" [] [] ⟨1, 0, 1, 0⟩ [] [] "b" [] ["a"] [] 0 1 false
      (by rfl) (by rfl) (by rfl) (by rfl)⟩

/-- Claim C9: `process` never checks that hunk starts are non-decreasing.
When a hunk's normalized old start lies strictly below the current cursor
`p1`, the leading copy loop is empty, the cursor is reassigned backwards to
that start, and application simply continues with the hunk's lines from there
— no ordering error exists. -/
theorem process_no_ordering_check
    (text : List String) (inp outp : String) (pre : List Context)
    (hdr : ContextHeader) (lines : List PatchLine) (rest : List Context)
    (out1 : List String) (p1 : Nat)
    (h1 : applyContexts text pre 0 = .ok (out1, p1))
    (hlt : hdr.file1_l < p1) :
    PatchProcessor.process ⟨text, ⟨inp, outp, pre ++ ⟨hdr, lines⟩ :: rest⟩⟩
      = Except.bind (applyLines text lines hdr.file1_l)
          (fun mid => Except.bind (applyContexts text rest mid.2)
            (fun post => Except.bind (copyRange text post.2 text.length)
              (fun tail => Except.ok (out1 ++ (mid.1 ++ post.1) ++ tail)))) := by
  rw [process_def]
  show Except.bind (applyContexts text (pre ++ ⟨hdr, lines⟩ :: rest) 0)
      (fun body => Except.bind (copyRange text body.2 text.length)
        (fun tail => Except.ok (body.1 ++ tail))) = _
  rw [applyContexts_append text pre (⟨hdr, lines⟩ :: rest) 0, h1]
  simp only [except_bind_ok]
  rw [applyContexts_cons_mk, copyRange_empty text p1 hdr.file1_l (Nat.le_of_lt hlt)]
  simp only [except_bind_ok]
  cases applyLines text lines hdr.file1_l with
  | error e => rfl
  | ok mid =>
    simp only [except_bind_ok]
    cases applyContexts text rest mid.2 with
    | error e => rfl
    | ok post =>
      simp only [except_bind_ok, except_map_ok]
      cases copyRange text post.2 text.length with
      | error e => rfl
      | ok tail =>
        simp only [except_bind_ok, except_map_ok, List.nil_append, List.append_assoc]

/-- Witness for `process_no_ordering_check`: two hunks both starting at `0` on
`["a"]` re-emit the line `"a"` instead of failing. -/
theorem process_no_ordering_check_witness :
    PatchProcessor.process
      ⟨["a"], ⟨"i", "o", [⟨⟨0, 1, 0, 1⟩, [PatchLine.Context "a"]⟩,
        ⟨⟨0, 1, 0, 1⟩, [PatchLine.Context "a"]⟩]⟩⟩ = .ok ["a", "a"] :=
  (process_no_ordering_check ["a"] "i" "o" [⟨⟨0, 1, 0, 1⟩, [PatchLine.Context "a"]⟩]
    ⟨0, 1, 0, 1⟩ [PatchLine.Context "a"] [] ["a"] 1 (by rfl) (by decide)).trans (by rfl)

/-- Claim C10: whenever the hunk loop succeeds, its final cursor is within the
original sequence — every advance follows a successful in-range access — so
the trailing copy loop cannot fail: `process` succeeds with the remaining
original lines appended. -/
theorem process_trailing_copy_total (self : PatchProcessor)
    (out : List String) (p : Nat)
    (h : applyContexts self.text self.patch.contexts 0 = .ok (out, p)) :
    p ≤ self.text.length ∧ self.process = .ok (out ++ self.text.drop p) := by
  have hp : p ≤ self.text.length :=
    applyContexts_ptr_le self.text self.patch.contexts 0 out p h (Nat.zero_le _)
  refine ⟨hp, ?_⟩
  rw [process_def, h]
  show Except.bind (copyRange self.text p self.text.length)
      (fun tail => Except.ok (out ++ tail)) = _
  rw [copyRange_drop self.text p hp]
  rfl

/-- Witness for `process_trailing_copy_total`: a pure insertion at cursor `1`
of `["a", "b"]` leaves the cursor at `1 ≤ 2` and `process` copies the
remaining `"b"`. -/
theorem process_trailing_copy_total_witness :
    1 ≤ 2
    ∧ PatchProcessor.process
        ⟨["a", "b"], ⟨"i", "o", [⟨⟨1, 0, 1, 0⟩, [PatchLine.Insert "X"]⟩]⟩⟩
        = .ok ["a", "X", "b"] :=
  process_trailing_copy_total
    ⟨["a", "b"], ⟨"i", "o", [⟨⟨1, 0, 1, 0⟩, [PatchLine.Insert "X"]⟩]⟩⟩
    ["a", "X"] 1 (by rfl)

/-- The hunk loop only consults each hunk's `file1_l` header field and its
line list. -/
theorem applyContexts_congr (text : List String) (cs1 : List Context) :
    ∀ cs2 : List Context,
      cs1.map (fun c => (c.header.file1_l, c.data))
        = cs2.map (fun c => (c.header.file1_l, c.data)) →
      ∀ ptr, applyContexts text cs1 ptr = applyContexts text cs2 ptr := by
  induction cs1 with
  | nil =>
    intro cs2 h ptr
    cases cs2 with
    | nil => rfl
    | cons c2 cs2 => simp at h
  | cons c cs1 ih =>
    intro cs2 h ptr
    cases cs2 with
    | nil => simp at h
    | cons c2 cs2 =>
      simp only [List.map_cons, List.cons.injEq, Prod.mk.injEq] at h
      obtain ⟨⟨hl, hd⟩, htl⟩ := h
      rw [applyContexts_cons text c cs1 ptr, applyContexts_cons text c2 cs2 ptr, hl, hd]
      simp only [ih cs2 htl]

/-- Claim C8: `process` depends only on each hunk's normalized old start and
its line list — two patches identical except in the `file1_s`, `file2_l`,
`file2_s` header fields produce identical results on every original
sequence. -/
theorem process_depends_only_on_start_and_lines
    (text : List String) (inp outp : String) (cs1 cs2 : List Context)
    (h : cs1.map (fun c => (c.header.file1_l, c.data))
        = cs2.map (fun c => (c.header.file1_l, c.data))) :
    PatchProcessor.process ⟨text, ⟨inp, outp, cs1⟩⟩
      = PatchProcessor.process ⟨text, ⟨inp, outp, cs2⟩⟩ := by
  rw [process_def, process_def]
  show Except.bind (applyContexts text cs1 0)
      (fun body => Except.bind (copyRange text body.2 text.length)
        (fun tail => Except.ok (body.1 ++ tail)))
    = Except.bind (applyContexts text cs2 0)
      (fun body => Except.bind (copyRange text body.2 text.length)
        (fun tail => Except.ok (body.1 ++ tail)))
  rw [applyContexts_congr text cs1 cs2 h 0]

/-- Witness for `process_depends_only_on_start_and_lines`: changing the three
unused header fields leaves the result unchanged. -/
theorem process_depends_only_on_start_and_lines_witness :
    PatchProcessor.process
      ⟨["a"], ⟨"i", "o", [⟨⟨1, 7, 9, 4⟩, [PatchLine.Insert "X"]⟩]⟩⟩
      = PatchProcessor.process
        ⟨["a"], ⟨"i", "o", [⟨⟨1, 0, 0, 0⟩, [PatchLine.Insert "X"]⟩]⟩⟩ :=
  process_depends_only_on_start_and_lines ["a"] "i" "o"
    [⟨⟨1, 7, 9, 4⟩, [PatchLine.Insert "X"]⟩]
    [⟨⟨1, 0, 0, 0⟩, [PatchLine.Insert "X"]⟩] (by rfl)

/-- Counterexample to claim C3 as stated: `converted` does not return the
final patched line sequence — it returns a `PatchProcessor` holding the
unprocessed original lines, and succeeds even on an input where processing
fails, so its success value cannot equal the (here non-existent) success
result of `process`. -/
theorem converted_counterexample :
    PatchProcessor.converted ["a"]
        (.ok ⟨"i", "o", [⟨⟨0, 1, 0, 1⟩, [PatchLine.Context "z"]⟩]⟩)
      = .ok ⟨["a"], ⟨"i", "o", [⟨⟨0, 1, 0, 1⟩, [PatchLine.Context "z"]⟩]⟩⟩
    ∧ converted_spec ["a"]
        (.ok ⟨"i", "o", [⟨⟨0, 1, 0, 1⟩, [PatchLine.Context "z"]⟩]⟩)
      = .error (.PatchInputMismatch 0) :=
  ⟨rfl, rfl⟩

/-- Claim C3 (amended): the convenience constructor returns a processor
holding the given original lines and the converted patch; running `process`
on its success value — rather than the constructor alone — yields exactly the
composition the spec describes (`convert` then `process`). -/
theorem converted_then_process (text : List String) (cv : Except Error Patch) :
    Except.bind (PatchProcessor.converted text cv) PatchProcessor.process
      = converted_spec text cv := by
  cases cv <;> rfl

/-- Claim C6: for headers whose 1-based start fields are both at least `1`,
the builder stores the old start and new start each decremented by one, and
the two length fields exactly as parsed. -/
theorem get_context_header_normalizes (f1l f1s f2l f2s : Nat)
    (h1 : 1 ≤ f1l) (h2 : 1 ≤ f2l) :
    get_context_header f1l f1s f2l f2s
      = some ⟨f1l - 1, f1s, f2l - 1, f2s⟩ := by
  unfold get_context_header subUnderflow
  rw [if_neg (by omega), if_neg (by omega)]
  rfl

/-- Witness for `get_context_header_normalizes`. -/
theorem get_context_header_normalizes_witness :
    get_context_header 2 3 4 5 = some ⟨1, 3, 3, 5⟩ :=
  get_context_header_normalizes 2 3 4 5 (by decide) (by decide)

/-- Claim C7: the subtract-one normalization is unguarded: a header whose
old-range start (or new-range start) field parses as `0` makes the
subtraction underflow — modelled as the panic value `none` — instead of
producing a typed error, so conversion is not total on such headers. -/
theorem get_context_header_underflow (f1l f1s f2l f2s : Nat)
    (h : f1l = 0 ∨ f2l = 0) :
    get_context_header f1l f1s f2l f2s = none := by
  rcases h with h | h
  · subst h
    rfl
  · subst h
    show Option.bind (subUnderflow f1l)
        (fun f1 => Option.bind (subUnderflow 0)
          (fun f2 => some ⟨f1, f1s, f2, f2s⟩)) = none
    cases subUnderflow f1l <;> rfl

/-- Witness for `get_context_header_underflow`. -/
theorem get_context_header_underflow_witness :
    get_context_header 0 3 4 5 = none :=
  get_context_header_underflow 0 3 4 5 (Or.inl rfl)

end PatchRs
